import Mathlib

/-!
Shallow embedding of the reconciliation shell in `xilem/src/lib.rs`:
the `ViewCtx` path tracker and action-routing table, the `Pod` element
wrapper and its upcast/downcast bridge, and the `Xilem` driver
construction.  Rust's `Vec<ViewId>` is a Lean `List`, `HashMap<WidgetId,
Vec<ViewId>>` is an association list with key-unique insertion, and
mutation is explicit state passing.
-/

/-- `xilem_core::ViewId` (an opaque 64-bit identifier). -/
abbrev ViewId := Nat

/-- `masonry::WidgetId` (the toolkit-assigned widget identity). -/
abbrev WidgetId := Nat

/-- A view path: `Vec<ViewId>`, root first. -/
abbrev ViewPath := List ViewId

/-- `type WidgetMap = HashMap<WidgetId, Vec<ViewId>>`, modelled as an
association list.  `insert` overwrites any existing binding of the key and
`remove` deletes it, matching `HashMap::insert` / `HashMap::remove`. -/
abbrev WidgetMap := List (WidgetId × ViewPath)

namespace WidgetMap

/-- `HashMap::get`: the path bound to `k`, if any. -/
def get? (m : WidgetMap) (k : WidgetId) : Option ViewPath :=
  (m.find? (fun p => p.1 == k)).map (fun p => p.2)

/-- `HashMap::insert`: bind `k` to `v`, overwriting any previous binding. -/
def insert (m : WidgetMap) (k : WidgetId) (v : ViewPath) : WidgetMap :=
  (k, v) :: m.filter (fun p => p.1 != k)

/-- `HashMap::remove`: delete the binding of `k`, if present. -/
def remove (m : WidgetMap) (k : WidgetId) : WidgetMap :=
  m.filter (fun p => p.1 != k)

/-- `HashMap::len`. -/
def size (m : WidgetMap) : Nat := m.length

/-- Key uniqueness: every `HashMap` has it, and `insert`/`remove`
preserve it. -/
def WF (m : WidgetMap) : Prop := (m.map Prod.fst).Nodup

instance (m : WidgetMap) : Decidable (WF m) := by
  unfold WF; infer_instance

end WidgetMap

/-- `masonry::WidgetPod<W>`: one persistent widget instance together with
its toolkit-assigned identity (`WidgetPod::id`). -/
structure WidgetPod (W : Type) where
  widget : W
  id : WidgetId

/-- `xilem::Pod<W>`: the owned wrapper around a `WidgetPod`. -/
structure Pod (W : Type) where
  inner : WidgetPod W

/-- `masonry::WidgetMut<W>`: a mutable handle to a widget; carries the
widget value and the identity reported by `widget.ctx.widget_id()`. -/
structure WidgetMut (W : Type) where
  widget : W
  id : WidgetId

/-- `Box<dyn Widget>`: a dynamically-typed widget over a family `F` of
concrete widget types indexed by a dynamic type tag. -/
structure DynWidget (F : Nat → Type) where
  tag : Nat
  val : F tag

/-- Modelled from the spec: `masonry::WidgetPod::boxed` (the toolkit side
of the upcast) is outside the included source; per the spec the uniform
form wraps the very same widget instance without copying, so it re-tags
the same widget value and keeps the toolkit-assigned identity. -/
def WidgetPod.boxed {F : Nat → Type} {t : Nat} (p : WidgetPod (F t)) :
    WidgetPod (DynWidget F) :=
  { widget := ⟨t, p.widget⟩, id := p.id }

/-- `SuperElement::<Pod<W>>::upcast for Pod<Box<dyn Widget>>`:
`child.inner.boxed().into()`. -/
def Pod.upcast {F : Nat → Type} {t : Nat} (child : Pod (F t)) :
    Pod (DynWidget F) :=
  ⟨child.inner.boxed⟩

/-- Modelled from the spec: `masonry::WidgetMut::downcast` is outside the
included source; per the spec it is failure-free exactly when the dynamic
type matches the expected concrete type, and a programming-error fault
(here `none`) on a mismatch. -/
def WidgetMut.downcast {F : Nat → Type} (t : Nat)
    (m : WidgetMut (DynWidget F)) : Option (WidgetMut (F t)) :=
  if h : m.widget.tag = t then some ⟨h ▸ m.widget.val, m.id⟩ else none

/-- `SuperElement::<Pod<W>>::with_downcast_val for Pod<Box<dyn Widget>>`.
The caller's operation `f` acts on the concrete widget through the
downcast handle (mutation is value passing) and produces a result; a
fault of the underlying `downcast` propagates as `none`. -/
def with_downcast_val {F : Nat → Type} {R : Type} (t : Nat)
    (this : WidgetMut (DynWidget F)) (f : F t → F t × R) :
    Option (WidgetMut (DynWidget F) × R) :=
  match this.downcast t with
  | some d =>
      let r := f d.widget
      some ({ widget := ⟨t, r.1⟩, id := this.id }, r.2)
  | none => none

/-- `xilem::ViewCtx`.  `proxy` and `runtime` are opaque handles
(`Arc<dyn RawProxy>` and `tokio::runtime::Runtime`). -/
structure ViewCtx where
  widget_map : WidgetMap
  id_path : List ViewId
  view_tree_changed : Bool
  proxy : Nat
  runtime : Nat
deriving Repr

namespace ViewCtx

/-- `ViewPathTracker::push_id for ViewCtx`: `self.id_path.push(id)`. -/
def push_id (ctx : ViewCtx) (id : ViewId) : ViewCtx :=
  { ctx with id_path := ctx.id_path ++ [id] }

/-- `ViewPathTracker::pop_id for ViewCtx`: `self.id_path.pop()`
(the popped value is discarded; popping an empty `Vec` yields `None`
and changes nothing). -/
def pop_id (ctx : ViewCtx) : ViewCtx :=
  { ctx with id_path := ctx.id_path.dropLast }

/-- `ViewPathTracker::view_path for ViewCtx`: `&self.id_path`. -/
def view_path (ctx : ViewCtx) : List ViewId :=
  ctx.id_path

/-- A run of `push_id` calls, one per element of `ids`, in order. -/
def pushList (ctx : ViewCtx) (ids : List ViewId) : ViewCtx :=
  ids.foldl push_id ctx

/-- `ViewCtx::mark_changed`.  The `cfg!(debug_assertions)` compile-time
test is the explicit `debug_assertions` argument. -/
def mark_changed (debug_assertions : Bool) (ctx : ViewCtx) : ViewCtx :=
  if debug_assertions then { ctx with view_tree_changed := true } else ctx

/-- `ViewCtx::with_action_widget`.  The element-constructing closure `f`
receives the context mutably, so it is a state-passing function. -/
def with_action_widget {E : Type} (ctx : ViewCtx) (f : ViewCtx → Pod E × ViewCtx) :
    Pod E × ViewCtx :=
  let r := f ctx
  let value := r.1
  let ctx1 := r.2
  let id := value.inner.id
  let path := ctx1.id_path
  (value, { ctx1 with widget_map := ctx1.widget_map.insert id path })

/-- `ViewCtx::with_leaf_action_widget`: `(self.with_action_widget(f), ())`. -/
def with_leaf_action_widget {E : Type} (ctx : ViewCtx) (f : ViewCtx → Pod E × ViewCtx) :
    (Pod E × Unit) × ViewCtx :=
  let r := with_action_widget ctx f
  ((r.1, ()), r.2)

/-- `ViewCtx::teardown_leaf`:
`self.widget_map.remove(&widget.ctx.widget_id())`. -/
def teardown_leaf {E : Type} (ctx : ViewCtx) (widget : WidgetMut E) : ViewCtx :=
  { ctx with widget_map := ctx.widget_map.remove widget.id }

end ViewCtx

namespace WidgetMap

theorem get?_insert_self (m : WidgetMap) (k : WidgetId) (v : ViewPath) :
    (m.insert k v).get? k = some v := by
  simp [insert, get?, List.find?_cons]

theorem find?_filter_of_ne (k k' : WidgetId) (h : k' ≠ k) (m : WidgetMap) :
    (m.filter (fun p => p.1 != k)).find? (fun p => p.1 == k')
      = m.find? (fun p => p.1 == k') := by
  induction m with
  | nil => rfl
  | cons p t ih =>
      obtain ⟨a, b⟩ := p
      by_cases ha : a = k
      · subst ha
        have h2 : ((a, b).1 == k') = false := by simpa using Ne.symm h
        simp [List.filter_cons, List.find?_cons, h2, ih]
      · have h1 : ((a, b).1 != k) = true := by simp [ha]
        by_cases hk' : a = k'
        · subst hk'
          simp [List.filter_cons, List.find?_cons, h1]
        · have h2 : ((a, b).1 == k') = false := by simp [hk']
          simp [List.filter_cons, List.find?_cons, h1, h2, ih]

theorem get?_insert_of_ne (m : WidgetMap) (k k' : WidgetId) (v : ViewPath)
    (h : k' ≠ k) : (m.insert k v).get? k' = m.get? k' := by
  have h2 : ((k, v).1 == k') = false := by simpa using Ne.symm h
  simp [insert, get?, List.find?_cons, h2, find?_filter_of_ne k k' h m]

theorem get?_remove_self (m : WidgetMap) (k : WidgetId) :
    (m.remove k).get? k = none := by
  simp only [remove, get?, Option.map_eq_none']
  rw [List.find?_eq_none]
  intro x hx
  have := (List.mem_filter.mp hx).2
  simpa using this

theorem get?_remove_of_ne (m : WidgetMap) (k k' : WidgetId) (h : k' ≠ k) :
    (m.remove k).get? k' = m.get? k' := by
  simp [remove, get?, find?_filter_of_ne k k' h m]

theorem remove_of_get?_none (m : WidgetMap) (k : WidgetId)
    (h : m.get? k = none) : m.remove k = m := by
  simp only [get?, Option.map_eq_none'] at h
  rw [List.find?_eq_none] at h
  rw [remove, List.filter_eq_self]
  intro p hp
  have := h p hp
  simpa using this

theorem size_remove_of_get?_some (m : WidgetMap) (k : WidgetId) (v : ViewPath)
    (hwf : m.WF) (h : m.get? k = some v) :
    (m.remove k).size + 1 = m.size := by
  induction m with
  | nil => simp [get?] at h
  | cons p t ih =>
      obtain ⟨a, b⟩ := p
      rw [WF, List.map_cons, List.nodup_cons] at hwf
      by_cases ha : a = k
      · subst ha
        have h1 : ((a, b).1 != a) = false := by simp
        have ht : t.filter (fun p => p.1 != a) = t := by
          rw [List.filter_eq_self]
          intro q hq
          have hne : q.1 ≠ a := by
            intro hqa
            have hmem : q.1 ∈ t.map Prod.fst := List.mem_map_of_mem Prod.fst hq
            rw [hqa] at hmem
            exact hwf.1 hmem
          simpa using hne
        simp [remove, size, List.filter_cons, h1, ht]
      · have h1 : ((a, b).1 != k) = true := by simp [ha]
        have h2 : ((a, b).1 == k) = false := by simp [ha]
        have hget : WidgetMap.get? t k = some v := by
          simpa [get?, List.find?_cons, h2] using h
        have := ih hwf.2 hget
        simp only [remove, size, List.filter_cons, h1, if_true, List.length_cons] at *
        omega

theorem WF_filter (m : WidgetMap) (p : WidgetId × ViewPath → Bool)
    (hwf : m.WF) : WF (m.filter p) := by
  induction m with
  | nil => exact hwf
  | cons q t ih =>
      rw [WF, List.map_cons, List.nodup_cons] at hwf
      by_cases hq : p q = true
      · rw [List.filter_cons, if_pos hq, WF, List.map_cons, List.nodup_cons]
        refine ⟨fun hm => ?_, ih hwf.2⟩
        obtain ⟨x, hx1, hx2⟩ := List.mem_map.mp hm
        have hmem : x.1 ∈ t.map Prod.fst :=
          List.mem_map_of_mem Prod.fst (List.mem_of_mem_filter hx1)
        rw [hx2] at hmem
        exact hwf.1 hmem
      · rw [List.filter_cons, if_neg hq]
        exact ih hwf.2

theorem WF_insert (m : WidgetMap) (k : WidgetId) (v : ViewPath)
    (hwf : m.WF) : (m.insert k v).WF := by
  rw [insert, WF, List.map_cons, List.nodup_cons]
  refine ⟨fun hm => ?_, WF_filter m _ hwf⟩
  obtain ⟨x, hx1, hx2⟩ := List.mem_map.mp hm
  have := (List.mem_filter.mp hx1).2
  rw [hx2] at this
  simp at this

theorem WF_remove (m : WidgetMap) (k : WidgetId) (hwf : m.WF) :
    (m.remove k).WF := WF_filter m _ hwf

end WidgetMap

/-- `masonry::Color` (RGBA8 components). -/
structure Color where
  r : Nat
  g : Nat
  b : Nat
  a : Nat
deriving Repr, DecidableEq

/-- `Color::BLACK`. -/
def Color.BLACK : Color := ⟨0, 0, 0, 255⟩

/-- `tokio::runtime::Runtime::new().unwrap()`: an opaque runtime handle. -/
def tokioRuntimeNew : Nat := 0

/-- `xilem::Xilem<State, Logic>`. -/
structure Xilem (State Logic : Type) where
  state : State
  logic : Logic
  runtime : Nat
  background_color : Color

/-- `Xilem::new`. -/
def Xilem.new {State Logic : Type} (state : State) (logic : Logic) :
    Xilem State Logic :=
  { state := state, logic := logic, runtime := tokioRuntimeNew,
    background_color := Color.BLACK }

/-- `Xilem::background_color` (the builder method; primed because the
field projection takes the unprimed name in Lean). -/
def Xilem.background_color' {State Logic : Type} (self : Xilem State Logic)
    (color : Color) : Xilem State Logic :=
  { self with background_color := color }

/-- `xilem::MasonryDriver<State, Logic, V, S>`. -/
structure MasonryDriver (State Logic V VS : Type) where
  current_view : V
  logic : Logic
  state : State
  ctx : ViewCtx
  view_state : VS

/-- `masonry::widget::RootWidget<W>` as far as this core sees it: the
wrapper produced by `RootWidget::from_pod`. -/
structure RootWidget (W : Type) where
  pod : WidgetPod W

/-- `RootWidget::from_pod`. -/
def RootWidget.from_pod {W : Type} (pod : WidgetPod W) : RootWidget W :=
  ⟨pod⟩

/-- `Xilem::into_driver`.  `Logic = State → V × State` embeds
`FnMut(&mut State) -> View`, and the trait method `View::build`, which
receives the context mutably, is the explicit `build` argument. -/
def Xilem.into_driver {State V VS W : Type}
    (self : Xilem State (State → V × State)) (proxy : Nat)
    (build : V → ViewCtx → (Pod W × VS) × ViewCtx) :
    RootWidget W × MasonryDriver State (State → V × State) V VS :=
  let r0 := self.logic self.state
  let first_view := r0.1
  let ctx : ViewCtx :=
    { widget_map := [], id_path := [], view_tree_changed := false,
      proxy := proxy, runtime := self.runtime }
  let r1 := build first_view ctx
  let pod := r1.1.1
  let view_state := r1.1.2
  let root_widget := RootWidget.from_pod pod.inner
  (root_widget,
   { current_view := first_view, logic := self.logic, state := r0.2,
     ctx := r1.2, view_state := view_state })

/-- One routing-table mutation: the map effect of a `with_action_widget`
registration (`ins`, a `HashMap::insert`) or of a `teardown_leaf`
(`del`, a `HashMap::remove`). -/
inductive MapOp where
  | ins (id : WidgetId) (path : ViewPath)
  | del (id : WidgetId)

/-- The effect of one routing-table mutation on the table. -/
def MapOp.apply (m : WidgetMap) : MapOp → WidgetMap
  | .ins id path => m.insert id path
  | .del id => m.remove id

/-- A sequence of routing-table mutations, applied left to right. -/
def MapOp.applyAll (m : WidgetMap) (ops : List MapOp) : WidgetMap :=
  ops.foldl MapOp.apply m

/-- Whether a routing-table mutation concerns the identity `k`. -/
def MapOp.touches (o : MapOp) (k : WidgetId) : Bool :=
  match o with
  | .ins id _ => id == k
  | .del id => id == k

theorem MapOp.WF_apply (m : WidgetMap) (o : MapOp) (hwf : m.WF) :
    (MapOp.apply m o).WF := by
  cases o with
  | ins id path => exact WidgetMap.WF_insert m id path hwf
  | del id => exact WidgetMap.WF_remove m id hwf

theorem MapOp.WF_applyAll (m : WidgetMap) (ops : List MapOp) (hwf : m.WF) :
    (MapOp.applyAll m ops).WF := by
  induction ops generalizing m with
  | nil => exact hwf
  | cons o t ih => exact ih (MapOp.apply m o) (MapOp.WF_apply m o hwf)

theorem MapOp.get?_apply_untouched (m : WidgetMap) (o : MapOp) (k : WidgetId)
    (ho : o.touches k = false) :
    (MapOp.apply m o).get? k = m.get? k := by
  cases o with
  | ins id path =>
      have : k ≠ id := fun hk => by simp [MapOp.touches, hk] at ho
      exact WidgetMap.get?_insert_of_ne m id k path this
  | del id =>
      have : k ≠ id := fun hk => by simp [MapOp.touches, hk] at ho
      exact WidgetMap.get?_remove_of_ne m id k this

theorem MapOp.get?_applyAll_untouched (m : WidgetMap) (ops : List MapOp)
    (k : WidgetId) (ho : ∀ o ∈ ops, MapOp.touches o k = false) :
    (MapOp.applyAll m ops).get? k = m.get? k := by
  induction ops generalizing m with
  | nil => rfl
  | cons o t ih =>
      have h1 := MapOp.get?_apply_untouched m o k (ho o (List.mem_cons_self o t))
      have h2 := ih (MapOp.apply m o) fun o' ho' => ho o' (List.mem_cons_of_mem o ho')
      exact h2.trans h1

-- Basic facts about the path tracker.

theorem ViewCtx.pop_id_push_id (ctx : ViewCtx) (id : ViewId) :
    (ctx.push_id id).pop_id = ctx := by
  simp [ViewCtx.push_id, ViewCtx.pop_id, List.dropLast_concat]

theorem ViewCtx.pushList_cons (ctx : ViewCtx) (a : ViewId) (as : List ViewId) :
    ctx.pushList (a :: as) = (ctx.push_id a).pushList as := rfl

theorem ViewCtx.popN_pushList (ctx : ViewCtx) (ids : List ViewId) :
    ViewCtx.pop_id^[ids.length] (ctx.pushList ids) = ctx := by
  induction ids generalizing ctx with
  | nil => rfl
  | cons a as ih =>
      rw [ViewCtx.pushList_cons, List.length_cons, Function.iterate_succ_apply',
        ih, ViewCtx.pop_id_push_id]

/-- C1: `push_id` appends exactly `id` to the end of the reported path,
`pop_id` undoes a `push_id` exactly, and any balanced run of `n` pushes
followed by `n` pops restores the whole context (in particular the path
and its length) to its value at entry. -/
theorem C1_path_tracker_stack_discipline (ctx : ViewCtx) (id : ViewId)
    (ids : List ViewId) :
    (ctx.push_id id).view_path = ctx.view_path ++ [id] ∧
    (ctx.push_id id).pop_id = ctx ∧
    ViewCtx.pop_id^[ids.length] (ctx.pushList ids) = ctx ∧
    (ViewCtx.pop_id^[ids.length] (ctx.pushList ids)).view_path = ctx.view_path := by
  refine ⟨rfl, ViewCtx.pop_id_push_id ctx id, ViewCtx.popN_pushList ctx ids, ?_⟩
  rw [ViewCtx.popN_pushList]

/-- C2: `with_action_widget f` returns exactly the `Pod` produced by `f`;
afterwards `widget_map` maps that `Pod`'s widget identity to the path that
was current at insertion time (a snapshot unaffected by later path
mutation, e.g. a subsequent `push_id`); every other table entry, the path,
and the remaining context fields are exactly as `f` left them; and
`with_leaf_action_widget f` returns the same `Pod` paired with `()`. -/
theorem C2_with_action_widget {E : Type} (ctx ctx1 : ViewCtx)
    (f : ViewCtx → Pod E × ViewCtx) (v : Pod E)
    (h : f ctx = (v, ctx1)) :
    (ViewCtx.with_action_widget ctx f).1 = v ∧
    (ViewCtx.with_action_widget ctx f).2.widget_map.get? v.inner.id
      = some ctx1.id_path ∧
    (∀ k, k ≠ v.inner.id →
      (ViewCtx.with_action_widget ctx f).2.widget_map.get? k
        = ctx1.widget_map.get? k) ∧
    (ViewCtx.with_action_widget ctx f).2.id_path = ctx1.id_path ∧
    (ViewCtx.with_action_widget ctx f).2.view_tree_changed
      = ctx1.view_tree_changed ∧
    (ViewCtx.with_action_widget ctx f).2.proxy = ctx1.proxy ∧
    (ViewCtx.with_action_widget ctx f).2.runtime = ctx1.runtime ∧
    (∀ j, (((ViewCtx.with_action_widget ctx f).2.push_id j).widget_map.get?
        v.inner.id) = some ctx1.id_path) ∧
    ViewCtx.with_leaf_action_widget ctx f
      = ((v, ()), (ViewCtx.with_action_widget ctx f).2) := by
  have hw : ViewCtx.with_action_widget ctx f
      = (v, { ctx1 with
          widget_map := ctx1.widget_map.insert v.inner.id ctx1.id_path }) := by
    simp [ViewCtx.with_action_widget, h]
  rw [hw]
  refine ⟨rfl, WidgetMap.get?_insert_self _ _ _,
    fun k hk => WidgetMap.get?_insert_of_ne _ _ k _ hk, rfl, rfl, rfl, rfl,
    fun j => WidgetMap.get?_insert_self _ _ _, ?_⟩
  simp [ViewCtx.with_leaf_action_widget, hw]

theorem C2_with_action_widget_witness :
    (ViewCtx.with_action_widget (E := Unit) ⟨[], [], false, 0, 0⟩
        (fun c => (⟨⟨(), 7⟩⟩, c.push_id 3))).2.widget_map.get? 7
      = some [3] ∧
    (ViewCtx.with_action_widget (E := Unit) ⟨[], [], false, 0, 0⟩
        (fun c => (⟨⟨(), 7⟩⟩, c.push_id 3))).1.inner.id = 7 := by
  have h := C2_with_action_widget (E := Unit) ⟨[], [], false, 0, 0⟩
    (ViewCtx.push_id ⟨[], [], false, 0, 0⟩ 3)
    (fun c => (⟨⟨(), 7⟩⟩, c.push_id 3)) ⟨⟨(), 7⟩⟩ rfl
  exact ⟨h.2.1, by rw [h.1]⟩

/-- C3: `teardown_leaf widget` removes exactly the routing-table entry
keyed by `widget`'s identity: afterwards that identity looks up to
nothing, entries for other identities are unchanged, the table size drops
by one when the identity was present (table unchanged when absent), and
no other field of the `ViewCtx` is modified. -/
theorem C3_teardown_leaf {E : Type} (ctx : ViewCtx) (widget : WidgetMut E)
    (hwf : ctx.widget_map.WF) :
    (ctx.teardown_leaf widget).widget_map.get? widget.id = none ∧
    (∀ k, k ≠ widget.id →
      (ctx.teardown_leaf widget).widget_map.get? k = ctx.widget_map.get? k) ∧
    (∀ v, ctx.widget_map.get? widget.id = some v →
      (ctx.teardown_leaf widget).widget_map.size + 1 = ctx.widget_map.size) ∧
    (ctx.widget_map.get? widget.id = none →
      (ctx.teardown_leaf widget).widget_map = ctx.widget_map) ∧
    (ctx.teardown_leaf widget).id_path = ctx.id_path ∧
    (ctx.teardown_leaf widget).view_tree_changed = ctx.view_tree_changed ∧
    (ctx.teardown_leaf widget).proxy = ctx.proxy ∧
    (ctx.teardown_leaf widget).runtime = ctx.runtime :=
  ⟨WidgetMap.get?_remove_self _ _,
   fun k hk => WidgetMap.get?_remove_of_ne _ _ k hk,
   fun v hv => WidgetMap.size_remove_of_get?_some _ _ v hwf hv,
   fun hn => WidgetMap.remove_of_get?_none ctx.widget_map widget.id hn,
   rfl, rfl, rfl, rfl⟩

theorem C3_teardown_leaf_witness :
    (ViewCtx.teardown_leaf (E := Unit) ⟨[(5, [1]), (9, [2])], [], false, 0, 0⟩
        ⟨(), 5⟩).widget_map.get? 5 = none ∧
    (ViewCtx.teardown_leaf (E := Unit) ⟨[(5, [1]), (9, [2])], [], false, 0, 0⟩
        ⟨(), 5⟩).widget_map.size + 1 = 2 := by
  have h := C3_teardown_leaf (E := Unit) ⟨[(5, [1]), (9, [2])], [], false, 0, 0⟩
    ⟨(), 5⟩ (by decide)
  exact ⟨h.1, h.2.2.1 [1] rfl⟩

/-- C5: with debug assertions, `mark_changed` sets `view_tree_changed` to
`true` and changes no other field; without them it is a complete no-op. -/
theorem C5_mark_changed_debug_only (ctx : ViewCtx) :
    (ViewCtx.mark_changed true ctx).view_tree_changed = true ∧
    (ViewCtx.mark_changed true ctx).widget_map = ctx.widget_map ∧
    (ViewCtx.mark_changed true ctx).id_path = ctx.id_path ∧
    (ViewCtx.mark_changed true ctx).proxy = ctx.proxy ∧
    (ViewCtx.mark_changed true ctx).runtime = ctx.runtime ∧
    ViewCtx.mark_changed false ctx = ctx :=
  ⟨rfl, rfl, rfl, rfl, rfl, rfl⟩

/-- C8: `pop_id` on a context whose path is empty does not fault and
changes nothing: the context (in particular the path, still empty) is
returned unchanged. -/
theorem C8_pop_id_empty_noop (ctx : ViewCtx) (h : ctx.id_path = []) :
    ctx.pop_id = ctx ∧ ctx.pop_id.view_path = [] := by
  have hp : ctx.pop_id = ctx := by
    have h2 : ctx.id_path.dropLast = ctx.id_path := by rw [h]; rfl
    show { ctx with id_path := ctx.id_path.dropLast } = ctx
    rw [h2]
  exact ⟨hp, by rw [hp, ViewCtx.view_path, h]⟩

theorem C8_pop_id_empty_noop_witness :
    ViewCtx.pop_id ⟨[], [], false, 0, 0⟩ = ⟨[], [], false, 0, 0⟩ :=
  (C8_pop_id_empty_noop ⟨[], [], false, 0, 0⟩ rfl).1

/-- C4: when the dynamic type of the wrapped widget matches the expected
concrete type `t`, `with_downcast_val` never faults: it applies `f`
exactly once to the downcast concrete widget and returns the uniform
handle (same identity, with the widget as `f` left it) paired with `f`'s
result. -/
theorem C4_with_downcast_val {F : Nat → Type} {R : Type} (t : Nat)
    (this : WidgetMut (DynWidget F)) (f : F t → F t × R)
    (h : this.widget.tag = t) :
    with_downcast_val t this f
      = some ({ widget := ⟨t, (f (h ▸ this.widget.val)).1⟩, id := this.id },
              (f (h ▸ this.widget.val)).2) ∧
    (with_downcast_val t this f).isSome = true := by
  have hd : this.downcast t = some ⟨h ▸ this.widget.val, this.id⟩ := by
    rw [WidgetMut.downcast, dif_pos h]
  constructor
  · rw [with_downcast_val, hd]
  · rw [with_downcast_val, hd]
    rfl

theorem C4_with_downcast_val_witness :
    with_downcast_val (F := fun _ => Nat) (R := Nat) 0
        ⟨⟨0, 42⟩, 9⟩ (fun n => (n + 1, n))
      = some (⟨⟨0, 43⟩, 9⟩, 42) :=
  (C4_with_downcast_val (F := fun _ => Nat) 0 ⟨⟨0, 42⟩, 9⟩
    (fun n => (n + 1, n)) rfl).1

/-- C7: `upcast` wraps the very same widget value (no copy, only the
dynamic tag added) and the wrapped element's toolkit-assigned widget
identity after the upcast equals the identity of `child` before it. -/
theorem C7_upcast_preserves_element {F : Nat → Type} {t : Nat}
    (child : Pod (F t)) :
    child.upcast.inner.id = child.inner.id ∧
    child.upcast.inner.widget.tag = t ∧
    child.upcast.inner.widget.val = child.inner.widget :=
  ⟨rfl, rfl, rfl⟩

/-- C6: `into_driver` obtains the first root view from one invocation of
the application logic on the application state, builds it with a fresh
`ViewCtx` whose path and routing table are empty and whose tree-changed
flag is `false`, wraps the resulting `Pod` as the root widget, and stores
the first view, its view state, the updated state, the logic, and the
very `ViewCtx` the build left behind in the returned `MasonryDriver`. -/
theorem C6_into_driver_first_build {State V VS W : Type}
    (self : Xilem State (State → V × State)) (proxy : Nat)
    (build : V → ViewCtx → (Pod W × VS) × ViewCtx)
    (v : V) (s1 : State) (pod : Pod W) (vs : VS) (ctx1 : ViewCtx)
    (hl : self.logic self.state = (v, s1))
    (hb : build v ⟨[], [], false, proxy, self.runtime⟩ = ((pod, vs), ctx1)) :
    Xilem.into_driver self proxy build
      = (RootWidget.from_pod pod.inner,
         { current_view := v, logic := self.logic, state := s1,
           ctx := ctx1, view_state := vs }) ∧
    (⟨[], [], false, proxy, self.runtime⟩ : ViewCtx).view_path = [] ∧
    (⟨[], [], false, proxy, self.runtime⟩ : ViewCtx).widget_map.size = 0 ∧
    (⟨[], [], false, proxy, self.runtime⟩ : ViewCtx).view_tree_changed
      = false := by
  refine ⟨?_, rfl, rfl, rfl⟩
  simp [Xilem.into_driver, hl, hb]

theorem C6_into_driver_first_build_witness :
    Xilem.into_driver (Xilem.new 0 (fun s : Nat => (s, s + 1))) 0
        (fun v c => (((⟨⟨(), v⟩⟩ : Pod Unit), ()), c.push_id v))
      = (RootWidget.from_pod ⟨(), 0⟩,
         { current_view := 0, logic := fun s => (s, s + 1), state := 1,
           ctx := ⟨[], [0], false, 0, 0⟩, view_state := () }) :=
  (C6_into_driver_first_build (Xilem.new 0 (fun s : Nat => (s, s + 1))) 0
    (fun v c => (((⟨⟨(), v⟩⟩ : Pod Unit), ()), c.push_id v))
    0 1 ⟨⟨(), 0⟩⟩ () ⟨[], [0], false, 0, 0⟩ rfl rfl).1

/-- C9: a `with_action_widget` registration whose element carries an
identity already present in `widget_map` overwrites the stored path with
the new snapshot; the map effects of `with_action_widget` and
`teardown_leaf` are exactly the insert/remove table mutations; key
uniqueness is preserved by every sequence of such mutations; and after
any sequence, an identity whose last relevant mutation was a registration
with path `p` maps to exactly `p`. -/
theorem C9_routing_table_most_recent {E : Type} (ctx ctx1 : ViewCtx)
    (f : ViewCtx → Pod E × ViewCtx) (v : Pod E) (old : ViewPath)
    (h : f ctx = (v, ctx1))
    (hold : ctx1.widget_map.get? v.inner.id = some old) :
    (ViewCtx.with_action_widget ctx f).2.widget_map.get? v.inner.id
      = some ctx1.id_path ∧
    (ViewCtx.with_action_widget ctx f).2.widget_map
      = MapOp.apply ctx1.widget_map (MapOp.ins v.inner.id ctx1.id_path) ∧
    (∀ (E2 : Type) (c : ViewCtx) (w : WidgetMut E2),
      (c.teardown_leaf w).widget_map
        = MapOp.apply c.widget_map (MapOp.del w.id)) ∧
    (∀ (m : WidgetMap) (ops : List MapOp), m.WF → (MapOp.applyAll m ops).WF) ∧
    (∀ (m : WidgetMap) (ops1 : List MapOp) (id : WidgetId) (p : ViewPath)
        (ops2 : List MapOp), (∀ o ∈ ops2, MapOp.touches o id = false) →
      (MapOp.applyAll m (ops1 ++ MapOp.ins id p :: ops2)).get? id
        = some p) := by
  have hw : ViewCtx.with_action_widget ctx f
      = (v, { ctx1 with
          widget_map := ctx1.widget_map.insert v.inner.id ctx1.id_path }) := by
    simp [ViewCtx.with_action_widget, h]
  refine ⟨?_, ?_, fun E2 c w => rfl,
    fun m ops hwf => MapOp.WF_applyAll m ops hwf, ?_⟩
  · rw [hw]
    exact WidgetMap.get?_insert_self _ _ _
  · rw [hw]
    rfl
  · intro m ops1 id p ops2 ho
    have hsplit : MapOp.applyAll m (ops1 ++ MapOp.ins id p :: ops2)
        = MapOp.applyAll
            (MapOp.apply (MapOp.applyAll m ops1) (MapOp.ins id p)) ops2 := by
      simp [MapOp.applyAll, List.foldl_append]
    rw [hsplit, MapOp.get?_applyAll_untouched _ _ _ ho]
    exact WidgetMap.get?_insert_self _ _ _

theorem C9_routing_table_most_recent_witness :
    (ViewCtx.with_action_widget (E := Unit) ⟨[(7, [9])], [5], false, 0, 0⟩
        (fun c => (⟨⟨(), 7⟩⟩, c))).2.widget_map.get? 7 = some [5] :=
  (C9_routing_table_most_recent (E := Unit) ⟨[(7, [9])], [5], false, 0, 0⟩
    ⟨[(7, [9])], [5], false, 0, 0⟩ (fun c => (⟨⟨(), 7⟩⟩, c)) ⟨⟨(), 7⟩⟩ [9]
    rfl rfl).1

/-- C10: `Xilem::new` initializes the main window background color to
black, and the `background_color` builder method sets exactly that field,
leaving the state, logic, and runtime fields unchanged. -/
theorem C10_background_color_frame {State Logic : Type} (state : State)
    (logic : Logic) (x : Xilem State Logic) (c : Color) :
    (Xilem.new state logic).background_color = Color.BLACK ∧
    (x.background_color' c).background_color = c ∧
    (x.background_color' c).state = x.state ∧
    (x.background_color' c).logic = x.logic ∧
    (x.background_color' c).runtime = x.runtime :=
  ⟨rfl, rfl, rfl, rfl, rfl⟩
